import Mathlib

/-!
Verification of the grading / caching / dispatch core of `dspy_optimize.py`.

The Python source is shallowly embedded: strings are Lean `String`s
(processed as `List Char`), Python floats are idealized as `ℚ` (or `ℝ`
where the source applies `sqrt` / `log`), dict rows become structures or
association lists, and the per-row loops become structural recursions that
build the same lists in the same order.
-/

/-- Python whitespace class used by the regex `\s` (ASCII fragment):
space, tab, newline, carriage return, vertical tab, form feed. -/
def pyIsSpace (c : Char) : Bool :=
  c = ' ' || c = '\t' || c = '\n' || c = '\x0d' || c = '\x0b' || c = '\x0c'

/-- Python `str.strip()` on a character list: drop whitespace at both ends. -/
def pyStripL (cs : List Char) : List Char :=
  ((cs.dropWhile pyIsSpace).reverse.dropWhile pyIsSpace).reverse

/-- Python `str.strip()` on a `String`. -/
def pyStrip (s : String) : String :=
  ⟨pyStripL s.data⟩

/-- Python `str.lower()` (ASCII case folding, matching the source's use on
ASCII prompt text). -/
def pyLower (s : String) : String :=
  ⟨s.data.map Char.toLower⟩

/-- Helper for `collapseWs`: `prevSpace` records whether the previous
character belonged to a whitespace run, so each run emits one space. -/
def collapseWsAux (prevSpace : Bool) : List Char → List Char
  | [] => []
  | c :: rest =>
    if pyIsSpace c then
      if prevSpace then collapseWsAux true rest
      else ' ' :: collapseWsAux true rest
    else c :: collapseWsAux false rest

/-- Embedding of `re.sub(r"\s+", " ", t)`: collapse each whitespace run to a
single space. -/
def collapseWs (cs : List Char) : List Char :=
  collapseWsAux false cs

/-- Fuel-indexed worker for `replaceL`; the fuel bounds the number of
recursion steps (each step consumes at least one character). -/
def replaceFuel (pat rep : List Char) : ℕ → List Char → List Char
  | 0, l => l
  | _ + 1, [] => []
  | fuel + 1, c :: rest =>
    if pat ≠ [] && pat.isPrefixOf (c :: rest) then
      rep ++ replaceFuel pat rep fuel ((c :: rest).drop pat.length)
    else
      c :: replaceFuel pat rep fuel rest

/-- Python `str.replace(pat, rep)` for a nonempty pattern, on character
lists. -/
def replaceL (pat rep : List Char) (l : List Char) : List Char :=
  replaceFuel pat rep l.length l

/-- Embedding of `_normalize_for_match`: lower-case, rewrite
`"step-by-step"` to `"step by step"`, replace hyphens by spaces, collapse
whitespace runs, and strip. -/
def _normalize_for_match (text : String) : String :=
  let t := (pyLower text).data
  let t := replaceL "step-by-step".data "step by step".data t
  let t := replaceL "-".data " ".data t
  let t := collapseWs t
  ⟨pyStripL t⟩

/-- Character class of the regex `[a-z0-9]` from `_tokens`. -/
def isLowerAlnum (c : Char) : Bool :=
  ('a' ≤ c && c ≤ 'z') || ('0' ≤ c && c ≤ '9')

/-- Helper for `findRuns`: `cur` accumulates the current run in reverse. -/
def findRunsAux (cls : Char → Bool) (cur : List Char) : List Char → List String
  | [] => if cur = [] then [] else [⟨cur.reverse⟩]
  | c :: rest =>
    if cls c then findRunsAux cls (c :: cur) rest
    else if cur = [] then findRunsAux cls [] rest
    else ⟨cur.reverse⟩ :: findRunsAux cls [] rest

/-- Embedding of `re.findall(r"[a-z0-9]+", t)` (or another character class):
the maximal runs of matching characters, in order. -/
def findRuns (cls : Char → Bool) (cs : List Char) : List String :=
  findRunsAux cls [] cs

/-- The fixed stop-word set `STOPWORDS` of the source. -/
def STOPWORDS : List String :=
  ["the", "a", "an", "and", "or", "to", "of", "in", "on", "for", "with", "by",
   "as", "at", "is", "are", "be", "when", "that", "this", "it", "from",
   "should", "must", "may", "can", "will", "if", "then", "into", "over",
   "under", "while", "both", "any", "your", "their", "its", "how"]

/-- Embedding of `_tokens`: normalize, split into alphanumeric runs, keep
tokens that are not stop words and are longer than two characters. -/
def _tokens (text : String) : List String :=
  let toks := findRuns isLowerAlnum (_normalize_for_match text).data
  toks.filter (fun tok => !STOPWORDS.contains tok && tok.length > 2)

/-- Embedding of `_feature_hit`. The Python membership test
`_normalize_for_match(feature_text) in lowered_content` is the contiguous
substring (list infix) relation; `content_tokens_set` is modelled as a list
queried only through membership. -/
def _feature_hit (feature_text : String) (lowered_content : String)
    (content_tokens_set : List String) (fuzzy_threshold : ℚ := 3/5) : Bool :=
  if (_normalize_for_match feature_text).data <:+: lowered_content.data then
    true
  else
    let ftoks := _tokens feature_text
    if ftoks = [] then
      false
    else
      let overlap : ℕ := (ftoks.filter (fun tok => content_tokens_set.contains tok)).length
      let coverage : ℚ := (overlap : ℚ) / (max 1 ftoks.length : ℕ)
      let thr : ℚ := if ftoks.length ≥ 10 then max (1/2) (fuzzy_threshold - 1/10)
                     else fuzzy_threshold
      decide (coverage ≥ thr)

/-! ### Scorer: `_build_weights_map`, `_analyze_output`, `_analyze_with_base` -/

/-- Overwriting insert on an association list, modelling assignment into a
Python dict (later assignments to the same key replace the earlier value,
first insertion fixes the position). -/
def dictInsert (m : List (String × ℚ)) (k : String) (v : ℚ) : List (String × ℚ) :=
  if m.any (fun p => p.1 == k) then
    m.map (fun p => if p.1 == k then (k, v) else p)
  else m ++ [(k, v)]

/-- Python `dict.get(k, d)` on the association-list model. -/
def dict_getD (m : List (String × ℚ)) (k : String) (d : ℚ) : ℚ :=
  match m.find? (fun p => p.1 == k) with
  | some p => p.2
  | none => d

/-- Embedding of `_build_weights_map`: clamp each override weight to be
nonnegative, key it by the stripped lower-cased feature text, and skip empty
keys. Overrides whose value fails `float()` are not modelled (they are
skipped by the source just like they are absent here). -/
def _build_weights_map (feature_weights : List (String × ℚ)) : List (String × ℚ) :=
  feature_weights.foldl (fun m kv =>
    let w := max 0 kv.2
    let norm_key := pyLower (pyStrip kv.1)
    if norm_key = "" then m else dictInsert m norm_key w) []

/-- Python `round(x, 4)` idealized on ℚ: round half to even at the integer
scale (banker's rounding, as Python's `round` on exact ties). -/
def pyRound (x : ℚ) : ℤ :=
  let f := ⌊x⌋
  let r := x - f
  if r < 1/2 then f
  else if 1/2 < r then f + 1
  else if f % 2 = 0 then f else f + 1

/-- Python `round(x, 4)`. -/
def round4 (x : ℚ) : ℚ :=
  (pyRound (x * 10000) : ℚ) / 10000

/-- The parsed-prompt fields used by the Scorer after a successful
`_parse_prompt_json` (the parse itself calls the external json-repair and
pydantic libraries and is passed in as data, not re-implemented). -/
structure ParsedPrompt where
  persona : String
  requirements : String
  fallback_output : String
  style_guide : Option String
deriving Repr, DecidableEq

/-- The document evaluated for a well-parsed prompt: the nonempty parts of
persona, requirements, fallback output and style guide joined by a space
and newline, mirroring the join in `_analyze_output`. -/
def _combined_text (p : ParsedPrompt) : String :=
  String.intercalate " \n"
    (([p.persona, p.requirements, p.fallback_output, p.style_guide.getD ""]).filter
      (fun part => part ≠ ""))

/-- The result dict of the analysis functions, restricted to the keys the
claims are about. `satisfiedCount` and `parsed` are `Option`s because each
of the two analysis functions emits only one of them; the echoed prompt
fields and the feedback string are not modelled. -/
structure AnalysisResult where
  score : ℚ
  coverage : ℚ
  satisfied : List String
  missing : List String
  satisfiedCount : Option ℕ
  parsed : Option Bool
deriving Repr, DecidableEq

/-- Accumulator of the per-feature loops in `_analyze_output` and
`_analyze_with_base`. -/
structure LoopAcc where
  hits : List String
  missing : List String
  hit_weight : ℚ
  total_weight : ℚ
deriving Repr, DecidableEq

/-- The per-feature loop of `_analyze_output`, recursing on the feature
list; it classifies each feature (stripped) as hit or missing and
accumulates the same weights and lists, in the same order, as the
imperative loop. -/
def _analyze_output_loop (lowered : String) (ctoks : List String)
    (wm : List (String × ℚ)) : List String → LoopAcc
  | [] => ⟨[], [], 0, 0⟩
  | feature :: rest =>
    let acc := _analyze_output_loop lowered ctoks wm rest
    let f := pyStrip feature
    if f = "" then acc
    else
      let weight := dict_getD wm (pyLower f) 1
      if _feature_hit f lowered ctoks then
        ⟨f :: acc.hits, acc.missing, acc.hit_weight + weight, acc.total_weight + weight⟩
      else
        ⟨acc.hits, f :: acc.missing, acc.hit_weight, acc.total_weight + weight⟩

/-- Embedding of `_analyze_output`. The outcome of `_parse_prompt_json` on
`raw_text` enters as `parse_result`: `some p` stands for a truthy parse
that passed schema validation, `none` for any failure. The returned dict
carries a `parsed` key but no `satisfiedCount` key. -/
def _analyze_output (parse_result : Option ParsedPrompt) (raw_text : String)
    (features : List String) (json_bonus : ℚ)
    (feature_weights : List (String × ℚ)) : AnalysisResult :=
  let combined_text := match parse_result with
    | some p => _combined_text p
    | none => raw_text
  let bonus : ℚ := match parse_result with
    | some _ => max 0 json_bonus
    | none => 0
  let weights_map := _build_weights_map feature_weights
  let lowered := _normalize_for_match combined_text
  let content_tokens_set := _tokens lowered
  let acc := _analyze_output_loop lowered content_tokens_set weights_map features
  let coverage : ℚ := if acc.total_weight > 1/1000000000 then acc.hit_weight / acc.total_weight else 1
  let score : ℚ := min 1 (coverage + bonus)
  { score := round4 score
    coverage := round4 coverage
    satisfied := acc.hits
    missing := acc.missing
    satisfiedCount := none
    parsed := some parse_result.isSome }

/-- The per-feature loop of `_analyze_with_base`: classification tests the
stripped text but the original feature string is what gets recorded. -/
def _analyze_with_base_loop (combined_lower : String) (ctoks : List String)
    (wm : List (String × ℚ)) : List String → LoopAcc
  | [] => ⟨[], [], 0, 0⟩
  | feature :: rest =>
    let acc := _analyze_with_base_loop combined_lower ctoks wm rest
    let normalized := pyStrip feature
    if normalized = "" then acc
    else
      let weight := dict_getD wm (pyLower normalized) 1
      if _feature_hit normalized combined_lower ctoks then
        ⟨feature :: acc.hits, acc.missing, acc.hit_weight + weight, acc.total_weight + weight⟩
      else
        ⟨acc.hits, feature :: acc.missing, acc.hit_weight, acc.total_weight + weight⟩

/-- Embedding of `_analyze_with_base` (the bulk path): the caller provides
the precomputed lower-cased document and the bonus-if-parsed. The returned
dict carries `satisfiedCount` but no `parsed` key. -/
def _analyze_with_base (combined_lower : String) (features : List String)
    (weights_map : List (String × ℚ)) (json_bonus_if_parsed : ℚ) : AnalysisResult :=
  let content_tokens_set := _tokens combined_lower
  let acc := _analyze_with_base_loop combined_lower content_tokens_set weights_map features
  let coverage : ℚ := if acc.total_weight > 1/1000000000 then acc.hit_weight / acc.total_weight else 1
  let score : ℚ := min 1 (coverage + json_bonus_if_parsed)
  { score := round4 score
    coverage := round4 coverage
    satisfied := acc.hits
    missing := acc.missing
    satisfiedCount := some acc.hits.length
    parsed := none }

/-- The weight the Scorer assigns to a (stripped) feature text. -/
def feature_weight (wm : List (String × ℚ)) (f : String) : ℚ :=
  dict_getD wm (pyLower f) 1

/-- The stripped non-blank feature texts, in order. -/
def nonblank_features (features : List String) : List String :=
  (features.map pyStrip).filter (fun f => f ≠ "")

/-- The original (unstripped) features whose stripped text is non-blank. -/
def nonblank_orig (features : List String) : List String :=
  features.filter (fun f => pyStrip f ≠ "")

/-- Sum of weights of all non-blank features. -/
def total_weight_spec (wm : List (String × ℚ)) (features : List String) : ℚ :=
  ((nonblank_features features).map (feature_weight wm)).sum

/-- Sum of weights of the satisfied non-blank features. -/
def hit_weight_spec (wm : List (String × ℚ)) (features : List String)
    (lowered : String) (ctoks : List String) : ℚ :=
  (((nonblank_features features).filter (fun f => _feature_hit f lowered ctoks)).map
    (feature_weight wm)).sum

/-- Sum of weights of all features with non-blank stripped text, keyed by
the stripped text, for `_analyze_with_base`. -/
def total_weight_base (wm : List (String × ℚ)) (features : List String) : ℚ :=
  ((nonblank_orig features).map (fun f => feature_weight wm (pyStrip f))).sum

/-- Sum of weights of the satisfied features for `_analyze_with_base`. -/
def hit_weight_base (wm : List (String × ℚ)) (features : List String)
    (combined_lower : String) (ctoks : List String) : ℚ :=
  (((nonblank_orig features).filter
      (fun f => _feature_hit (pyStrip f) combined_lower ctoks)).map
    (fun f => feature_weight wm (pyStrip f))).sum

/-- The document `_analyze_output` evaluates: the combined parsed fields on
a good parse, the raw text otherwise. -/
def output_doc (pr : Option ParsedPrompt) (raw : String) : String :=
  match pr with
  | some p => _combined_text p
  | none => raw

/-- The structural bonus `_analyze_output` applies: the clamped JSON bonus
on a good parse, zero otherwise. -/
def output_bonus (pr : Option ParsedPrompt) (jb : ℚ) : ℚ :=
  match pr with
  | some _ => max 0 jb
  | none => 0

/-- The exact (pre-rounding) coverage: weighted hit fraction, or 1 when the
total weight is at most the 1e-9 cutoff. -/
def coverage_of (hw tw : ℚ) : ℚ :=
  if tw > 1/1000000000 then hw / tw else 1

/-! ### Cache Store: `_cache_evict_and_prune` -/

/-- A cache row as used by the eviction pass: only `ts` and `lastAccess`
drive it. `lastAccess = none` models an absent key (`ts` is the fallback);
`key` keeps rows distinguishable. -/
structure CacheEntry where
  key : String
  ts : ℚ
  lastAccess : Option ℚ
deriving Repr, DecidableEq

/-- The LRU sort key `float(it.get("lastAccess", it.get("ts", 0.0)) or 0.0)`:
`lastAccess` when present, else `ts` (a JSON-null `lastAccess`, which the
store never writes, is not modelled). -/
def _cache_sort_key (it : CacheEntry) : ℚ :=
  match it.lastAccess with
  | some v => v
  | none => it.ts

/-- Python list slice `l[start:]` including negative-index semantics. -/
def pySliceFrom {α : Type} (l : List α) (start : ℤ) : List α :=
  if start < 0 then l.drop ((l.length : ℤ) + start).toNat
  else l.drop start.toNat

/-- Embedding of `_cache_evict_and_prune`: drop expired entries, then, if
the limit is exceeded, stable-sort ascending by the LRU key and keep the
slice `kept[-max_entries:]`. `now` stands for `time.time()`. -/
def _cache_evict_and_prune (items : List CacheEntry) (ttl_seconds max_entries : ℤ)
    (now : ℚ) : List CacheEntry :=
  let kept := items.filter (fun it => decide (now - it.ts ≤ (ttl_seconds : ℚ)))
  if (kept.length : ℤ) > max_entries then
    pySliceFrom (kept.mergeSort (fun a b => decide (_cache_sort_key a ≤ _cache_sort_key b)))
      (-max_entries)
  else kept

/-! ### Experience Bank: `_retrieve_experiences`, `_append_experience`,
`_prune_experiences` -/

/-- An experience row. `id`/`usageCount` are `Option`s because `append`
inspects their presence; the other fields carry the defaults the readers
apply (`score` 0.0, `parsed` false, empty strings) when keys are absent. -/
structure ExpRecord where
  id : Option String
  ts : ℚ
  schemaType : String
  context_summary : String
  optimization_brief : String
  score : ℚ
  parsed : Bool
  usageCount : Option ℤ
deriving Repr, DecidableEq

/-- Character class of the regex `[a-zA-Z0-9_]` from `_text2bow`. -/
def isWordChar (c : Char) : Bool :=
  ('a' ≤ c && c ≤ 'z') || ('A' ≤ c && c ≤ 'Z') || ('0' ≤ c && c ≤ '9') || c = '_'

/-- Embedding of `_text2bow`: the bag of words is the token list itself
(its multiset structure is the `Counter`), tokens longer than two
characters from the lower-cased text. -/
def _text2bow (text : String) : List String :=
  (findRuns isWordChar (pyLower text).data).filter (fun tok => tok.length > 2)

/-- Numerator of `_cosine`: over the common support (distinct tokens of `a`
also occurring in `b`), the product of the two counts. -/
def _cosine_num (a b : List String) : ℕ :=
  ((a.dedup.filter (fun t => b.contains t)).map (fun t => a.count t * b.count t)).sum

/-- Sum of squared counts of a bag of words (the Counter's values). -/
def _sumsq (a : List String) : ℕ :=
  (a.dedup.map (fun t => (a.count t) ^ 2)).sum

/-- Embedding of `_cosine` (floats idealized as reals because of `sqrt`):
zero when the denominator is zero. -/
noncomputable def _cosine (a b : List String) : ℝ :=
  let denominator := Real.sqrt (_sumsq a) * Real.sqrt (_sumsq b)
  if denominator = 0 then 0 else (_cosine_num a b : ℝ) / denominator

/-- The clamped usage count `max(0, int(item.get("usageCount", 0)))`. -/
def exp_usage (item : ExpRecord) : ℤ :=
  max 0 (item.usageCount.getD 0)

/-- The blended ranking weight of `_retrieve_experiences`:
`0.7·similarity + 0.2·score + 0.1·recencyBonus + usageBonus` with
`recencyBonus = 1/max(1, ageSeconds/86400)`, `ageSeconds = max(1, now-ts)`,
and `usageBonus = min(0.1, 0.03·ln(1+usage))`. -/
noncomputable def _exp_weight (query_bow : List String) (now : ℚ) (item : ExpRecord) : ℝ :=
  let combined := item.context_summary ++ "\n" ++ item.optimization_brief
  let similarity := _cosine query_bow (_text2bow combined)
  let age_seconds : ℚ := max 1 (now - item.ts)
  let recency_bonus : ℚ := 1 / max 1 (age_seconds / 86400)
  let usage_bonus : ℝ := min 0.1 (0.03 * Real.log (1 + (exp_usage item : ℝ)))
  0.7 * similarity + 0.2 * (item.score : ℝ) + 0.1 * (recency_bonus : ℝ) + usage_bonus

/-- The filter of `_retrieve_experiences`: matching schema type, parsed,
and score at least `min_score`. -/
def exp_candidate (schema_type : String) (min_score : ℚ) (item : ExpRecord) : Bool :=
  item.schemaType == schema_type && item.parsed && decide (min_score ≤ item.score)

/-- Embedding of `_retrieve_experiences` over the store's rows (the
path-existence guards are represented by the rows being given): filter,
stable-sort descending by the blended weight, take the top `top_k`. -/
noncomputable def _retrieve_experiences (items : List ExpRecord) (schema_type : String)
    (query_text : String) (top_k : ℤ) (min_score : ℚ) (now : ℚ) : List ExpRecord :=
  if top_k ≤ 0 then []
  else
    let query_bow := _text2bow query_text
    let candidates := items.filter (exp_candidate schema_type min_score)
    (candidates.mergeSort (fun a b =>
      decide (_exp_weight query_bow now b ≤ _exp_weight query_bow now a))).take top_k.toNat

/-- A file-level operation performed by a store helper, so that the locking
discipline of an append is visible in the embedding. -/
inductive FileOp where
  | lockAcquire
  | lockRelease
  | writeLine (record : ExpRecord)
deriving Repr, DecidableEq

/-- Embedding of `_append_experience`: on a nonempty path, default the id
(when missing or empty, Python falsiness) to the fresh uuid and the usage
count (when absent) to zero, then append that single row. The returned
trace records the file operations the source performs: it opens the file
in append mode and writes one line, without acquiring the file lock
(unlike `_append_best_prompt` and `_append_debug_log`, which wrap their
writes in `_file_lock_context`). -/
def _append_experience (store : List ExpRecord) (record : ExpRecord)
    (fresh_id : String) (path_nonempty : Bool) : List ExpRecord × List FileOp :=
  if !path_nonempty then (store, [])
  else
    let record1 := if record.id = none ∨ record.id = some "" then
      { record with id := some fresh_id } else record
    let record2 := if record1.usageCount = none then
      { record1 with usageCount := some 0 } else record1
    (store ++ [record2], [FileOp.writeLine record2])

/-- The counts dict returned by `_prune_experiences`, along with the
rewritten store. -/
structure PruneResult where
  kept : List ExpRecord
  before : ℕ
  after : ℕ
  removed : ℕ
deriving Repr, DecidableEq

/-- Embedding of `_prune_experiences`: drop rows with low score or, when
the age check is enabled (`max_age_days > 0` after clamping), rows older
than `max_age_days` days; report counts. -/
def _prune_experiences (items : List ExpRecord) (prune_threshold : ℚ)
    (max_age_days : ℤ) (now : ℚ) : PruneResult :=
  let max_age_seconds : ℤ := max 0 max_age_days * 86400
  let keep := items.filter (fun it =>
    !(decide (it.score < prune_threshold) ||
      (decide (max_age_seconds > 0) && decide (now - it.ts > (max_age_seconds : ℚ)))))
  ⟨keep, items.length, keep.length, items.length - keep.length⟩

/-! ### Snapshot Persister: the per-sample best tracking of `metric` -/

/-- The `best_tracker` dict of the metric closure. -/
structure BestTracker where
  raw : ℚ
  adj : ℚ
  coverage : ℚ
  iteration : ℤ
  stage : ℤ
deriving Repr, DecidableEq

/-- A best-prompt snapshot, restricted to the fields the claims read. -/
structure Snapshot where
  rawScore : ℚ
  adjScore : ℚ
  coverage : ℚ
  iteration : ℤ
  stage : ℤ
  reason : String
deriving Repr, DecidableEq

/-- Embedding of the per-sample portion of `metric` that maintains the
global best tracker and appends the "coverageThreshold" snapshot to the
primary best-prompts store: first best-tracking updates on strict raw
improvement, then the threshold check `coverage >= 0.8 and raw_score >=
best_tracker["raw"]` against the already-updated tracker, appending only
when a best-prompts path is configured. Returns the new tracker and the
list of snapshots appended to the primary store by this sample. -/
def metric_step (bt : BestTracker) (raw_score adj_score coverage : ℚ)
    (iteration stage : ℤ) (best_prompts_path_nonempty : Bool) :
    BestTracker × List Snapshot :=
  let bt1 := if raw_score > bt.raw then
    ⟨raw_score, adj_score, coverage, iteration, stage⟩ else bt
  let appends := if coverage ≥ 8/10 ∧ raw_score ≥ bt1.raw then
    (if best_prompts_path_nonempty then
      [⟨raw_score, adj_score, coverage, iteration, stage, "coverageThreshold"⟩]
    else [])
  else []
  (bt1, appends)

/-! ### Evaluation Dispatcher: `_parallel_evaluate_prompt` -/

/-- Embedding of `_parallel_worker`: it evaluates `_analyze_with_base`; its
per-item exception fallback is unreachable here because the embedded
analysis is total. -/
def _parallel_worker (combined_lower : String) (features : List String)
    (weights_map : List (String × ℚ)) (bonus : ℚ) : AnalysisResult :=
  _analyze_with_base combined_lower features weights_map bonus

/-- Embedding of `_precompute_prompt_base`: parse once (the parse outcome
enters as data, as in `_analyze_output`); on success the combined parsed
text lower-cased with the clamped bonus, otherwise the raw text lower-cased
with zero bonus. -/
def _precompute_prompt_base (parse_result : Option ParsedPrompt) (raw_text : String)
    (json_bonus : ℚ) : String × ℚ :=
  match parse_result with
  | some p => (pyLower (_combined_text p), max 0 json_bonus)
  | none => (pyLower raw_text, 0)

/-- Outcome of running a worker pool that started successfully. -/
inductive PoolOutcome where
  | success
  | timeout
  | failure
deriving Repr, DecidableEq

/-- The dispatcher's nondeterministic environment: the `DSPY_PARALLEL`
thread override, the multiprocessing health probe, and the outcome of each
pool the cascade may start (`none` models the pool failing to initialize).
A successful pool's `map_async` returns the worker's image of the argument
list in order — the `Pool.map` contract. -/
structure DispatchEnv where
  force_threads : Bool
  mp_healthy : Bool
  proc_pool : Option PoolOutcome
  thread_pool : Option PoolOutcome
deriving Repr, DecidableEq

/-- The metadata dict of `_parallel_evaluate_prompt` (fallback reasons keep
the source's fixed prose; interpolated exception text is elided). -/
structure DispatchMeta where
  evaluated : ℕ
  workers : ℤ
  batch : ℤ
  mode : Option String
  fallback : Option String
deriving Repr, DecidableEq

/-- Embedding of `_parallel_evaluate_prompt`: empty input short-circuits;
otherwise the strategy cascade (forced threads / unhealthy-multiprocessing
threads / processes, each falling back to threads and then to the
sequential loop) runs under the outcomes in `env`. Every path's result
list is the worker's image of the per-checklist argument list. -/
def _parallel_evaluate_prompt (env : DispatchEnv) (parse_result : Option ParsedPrompt)
    (raw_text : String) (feature_sets : List (List String)) (json_bonus : ℚ)
    (feature_weights : List (String × ℚ)) (workers batch_size : ℤ) :
    List AnalysisResult × DispatchMeta :=
  if feature_sets = [] then ([], ⟨0, 0, batch_size, none, none⟩)
  else
    let pb := _precompute_prompt_base parse_result raw_text json_bonus
    let weights_map := _build_weights_map feature_weights
    let results := feature_sets.map (fun fs => _parallel_worker pb.1 fs weights_map pb.2)
    let meta0 : DispatchMeta := ⟨feature_sets.length, max 1 workers, max 1 batch_size, none, none⟩
    if env.force_threads then
      match env.thread_pool with
      | none => (results, { meta0 with workers := 1, fallback := some "sequential - thread pool init failed" })
      | some .success => (results, { meta0 with mode := some "threads" })
      | some .timeout => (results, { meta0 with workers := 1, fallback := some "sequential - thread pool timeout" })
      | some .failure => (results, { meta0 with workers := 1, fallback := some "sequential - thread pool failed" })
    else if !env.mp_healthy then
      match env.thread_pool with
      | none => (results, { meta0 with workers := 1, fallback := some "sequential - multiprocessing unavailable" })
      | some .success => (results, { meta0 with mode := some "threads", fallback := some "threads - multiprocessing unavailable" })
      | some .timeout => (results, { meta0 with workers := 1, fallback := some "sequential - thread pool timeout; multiprocessing unavailable" })
      | some .failure => (results, { meta0 with workers := 1, fallback := some "sequential - thread pool failed; multiprocessing unavailable" })
    else
      match env.proc_pool with
      | some .success => (results, { meta0 with mode := some "processes" })
      | some .timeout =>
        match env.thread_pool with
        | none => (results, { meta0 with workers := 1, fallback := some "sequential - process timeout; thread init failed" })
        | some .success => (results, { meta0 with mode := some "threads", fallback := some "threads - process pool timeout" })
        | some .timeout => (results, { meta0 with workers := 1, fallback := some "sequential - both pools timeout" })
        | some .failure => (results, { meta0 with workers := 1, fallback := some "sequential - process timeout; thread failed" })
      | some .failure =>
        match env.thread_pool with
        | none => (results, { meta0 with workers := 1, fallback := some "sequential - process failed; thread init failed" })
        | some .success => (results, { meta0 with mode := some "threads", fallback := some "threads - process pool failed" })
        | some .timeout => (results, { meta0 with workers := 1, fallback := some "sequential - thread timeout after process failure" })
        | some .failure => (results, { meta0 with workers := 1, fallback := some "sequential - thread failed after process failure" })
      | none =>
        match env.thread_pool with
        | none => (results, { meta0 with workers := 1, fallback := some "sequential - both pools failed" })
        | some .success => (results, { meta0 with mode := some "threads", fallback := some "threads - process pool init failed" })
        | some .timeout => (results, { meta0 with workers := 1, fallback := some "sequential - thread timeout after process init failure" })
        | some .failure => (results, { meta0 with workers := 1, fallback := some "sequential - thread failed after process init failure" })

/-! ### Cache key: `_build_cache_key` over a JSON value model -/

/-- JSON values as handled by `json.dumps`: objects keep their insertion
order as association lists. -/
inductive JValue where
  | null
  | bool (b : Bool)
  | num (q : ℚ)
  | str (s : String)
  | arr (items : List JValue)
  | obj (fields : List (String × JValue))

/-- Python truthiness of a JSON value (`None`, `False`, `0`, `""`, `[]` and
an empty dict are falsy). -/
def jTruthy : JValue → Bool
  | .null => false
  | .bool b => b
  | .num q => decide (q ≠ 0)
  | .str s => s ≠ ""
  | .arr l => !l.isEmpty
  | .obj l => !l.isEmpty

/-- Python `payload.get(k)`: `none` models an absent key (`None`). -/
def jGet (p : List (String × JValue)) (k : String) : Option JValue :=
  (p.find? (fun q => q.1 == k)).map (fun q => q.2)

/-- Python `payload.get(k, d)` with the default serialized as a JSON value
(an absent key serializes as `null` when the default is `None`). -/
def jGetD (p : List (String × JValue)) (k : String) (d : JValue) : JValue :=
  (jGet p k).getD d

/-- Python `payload.get(k) or d` (also `payload.get(k, d) or d` for a falsy
default `d`): the stored value when present and truthy, else `d`. -/
def jGetOr (p : List (String × JValue)) (k : String) (d : JValue) : JValue :=
  match jGet p k with
  | some v => if jTruthy v then v else d
  | none => d

/-- Python `s.get(k)` on a shot dict (shots are dicts in every caller). -/
def sGet (v : JValue) (k : String) : JValue :=
  match v with
  | .obj f => jGetD f k .null
  | _ => .null

/-- The normalized shot subset `{id, timecode, label, note}` in stable
order, from `_build_cache_key`. -/
def shot_norm (s : JValue) : JValue :=
  .obj [("id", sGet s "id"), ("timecode", sGet s "timecode"),
        ("label", sGet s "label"), ("note", sGet s "note")]

/-- The shots list `payload.get("shots", []) or []` (shots are a list in
every caller). -/
def jShotsList (p : List (String × JValue)) : List JValue :=
  match jGetOr p "shots" (.arr []) with
  | .arr l => l
  | _ => []

/-- The `key_obj` dict assembled by `_build_cache_key`, fields in the
source's insertion order. -/
def key_obj (payload : List (String × JValue)) : JValue :=
  .obj [
    ("schemaType", jGetD payload "schemaType" .null),
    ("enforceSchema", .bool (jTruthy (jGetD payload "enforceSchema" (.bool false)))),
    ("titleHint", jGetOr payload "titleHint" (.str "")),
    ("shots", .arr ((jShotsList payload).map shot_norm)),
    ("basePrompt", jGetOr payload "basePrompt" (.obj [])),
    ("referencePrompts", jGetOr payload "referencePrompts" (.obj [])),
    ("model", jGetD payload "model" .null),
    ("reflectionModel", jGetD payload "reflectionModel" .null),
    ("temperature", jGetD payload "temperature" .null),
    ("reflectionTemperature", jGetD payload "reflectionTemperature" .null),
    ("maxTokens", jGetD payload "maxTokens" .null),
    ("reflectionMaxTokens", jGetD payload "reflectionMaxTokens" .null),
    ("rpmLimit", jGetD payload "rpmLimit" .null),
    ("jsonBonus", jGetD payload "jsonBonus" .null),
    ("featureWeights", jGetOr payload "featureWeights" (.obj [])),
    ("auto", jGetD payload "auto" .null),
    ("maxMetricCalls", jGetD payload "maxMetricCalls" .null),
    ("seed", jGetD payload "seed" .null),
    ("initialInstructions", jGetOr payload "initialInstructions" (.str "")),
    ("experiencePath", jGetOr payload "experiencePath" (.str "")),
    ("experienceTopK", jGetD payload "experienceTopK" .null),
    ("experienceMinScore", jGetD payload "experienceMinScore" .null),
    ("persistExperience", jGetD payload "persistExperience" .null),
    ("checkpointPath", jGetOr payload "checkpointPath" (.str "")),
    ("alwaysFullValidation", jGetD payload "alwaysFullValidation" .null),
    ("progressiveSchedule", jGetD payload "progressiveSchedule" .null),
    ("minValidationSize", jGetD payload "minValidationSize" .null),
    ("earlyStopOnPerfect", jGetD payload "earlyStopOnPerfect" .null),
    ("earlyStopStreak", jGetD payload "earlyStopStreak" .null),
    ("parallelEval", jGetD payload "parallelEval" .null),
    ("parallelWorkers", jGetD payload "parallelWorkers" .null),
    ("parallelBatchSize", jGetD payload "parallelBatchSize" .null),
    ("evalTimeoutMs", jGetD payload "evalTimeoutMs" .null)
  ]

mutual
/-- The canonical form induced by `json.dumps(..., sort_keys=True)`:
object fields are recursively sorted by key (stable, as Python dict keys
are duplicate-free). -/
def canon : JValue → JValue
  | .null => .null
  | .bool b => .bool b
  | .num q => .num q
  | .str s => .str s
  | .arr items => .arr (canonArr items)
  | .obj fields => .obj ((canonObj fields).mergeSort (fun a b => decide (a.1 ≤ b.1)))
/-- Canonicalize every element of a JSON array. -/
def canonArr : List JValue → List JValue
  | [] => []
  | v :: rest => canon v :: canonArr rest
/-- Canonicalize every value of an object's field list. -/
def canonObj : List (String × JValue) → List (String × JValue)
  | [] => []
  | (k, v) :: rest => (k, canon v) :: canonObj rest
end

/-- Embedding of `_build_cache_key`: the SHA-256 of the canonical JSON
serialization is modelled as an arbitrary function `hash` applied to the
canonical form of the key object — every fact the claims need holds for
every such function. -/
def _build_cache_key (hash : JValue → String) (payload : List (String × JValue)) : String :=
  hash (canon (key_obj payload))

mutual
/-- Two JSON values that are identical up to reordering of object fields
(with duplicate-free keys): the sense in which two cache-key inputs are
"identical in value" regardless of incidental dict ordering. -/
inductive EquivJ : JValue → JValue → Prop where
  | null : EquivJ .null .null
  | bool (b : Bool) : EquivJ (.bool b) (.bool b)
  | num (q : ℚ) : EquivJ (.num q) (.num q)
  | str (s : String) : EquivJ (.str s) (.str s)
  | arr {l₁ l₂ : List JValue} : EquivArr l₁ l₂ → EquivJ (.arr l₁) (.arr l₂)
  | obj {f₁ f₂ f₂' : List (String × JValue)} :
      List.Perm f₂' f₂ → (f₁.map Prod.fst).Nodup → EquivObj f₁ f₂' →
      EquivJ (.obj f₁) (.obj f₂)
/-- Pointwise equivalence of JSON arrays. -/
inductive EquivArr : List JValue → List JValue → Prop where
  | nil : EquivArr [] []
  | cons {a b : JValue} {l₁ l₂ : List JValue} :
      EquivJ a b → EquivArr l₁ l₂ → EquivArr (a :: l₁) (b :: l₂)
/-- Pointwise equivalence of object field lists: equal keys, equivalent
values. -/
inductive EquivObj : List (String × JValue) → List (String × JValue) → Prop where
  | nil : EquivObj [] []
  | cons {p q : String × JValue} {l₁ l₂ : List (String × JValue)} :
      p.1 = q.1 → EquivJ p.2 q.2 → EquivObj l₁ l₂ → EquivObj (p :: l₁) (q :: l₂)
end

/-- C3: the Matcher `_feature_hit` reports a hit whenever the normalized
feature text occurs as a contiguous substring of the document (weight plays
no role: it is not even an input); otherwise it is a hit iff the feature's
filtered token list is nonempty and the fraction of its tokens present in
the document token set reaches the threshold, 3/5 by default and 1/2 when
the feature has at least 10 tokens; a feature with no tokens and no
substring match is never a hit. -/
theorem C3_matcher_hit_rule (f doc : String) (ctoks : List String) :
    ((_normalize_for_match f).data <:+: doc.data → _feature_hit f doc ctoks = true)
    ∧ (¬ (_normalize_for_match f).data <:+: doc.data →
        (_feature_hit f doc ctoks = true ↔
          _tokens f ≠ [] ∧
          (if 10 ≤ (_tokens f).length then (1 : ℚ)/2 else 3/5) ≤
            (((_tokens f).filter (fun tok => ctoks.contains tok)).length : ℚ) /
              ((_tokens f).length : ℚ)))
    ∧ (¬ (_normalize_for_match f).data <:+: doc.data → _tokens f = [] →
        _feature_hit f doc ctoks = false) := by
  refine ⟨fun h => ?_, fun h => ?_, fun h h0 => ?_⟩
  · simp only [_feature_hit, if_pos h]
  · simp only [_feature_hit, if_neg h]
    rcases Decidable.em (_tokens f = []) with h0 | h0
    · simp [h0]
    · have hlen : 0 < (_tokens f).length := List.length_pos.mpr h0
      have hmax : (max 1 (_tokens f).length : ℕ) = (_tokens f).length := by omega
      have hthr : (if (_tokens f).length ≥ 10 then max ((1 : ℚ)/2) (3/5 - 1/10) else 3/5)
          = (if 10 ≤ (_tokens f).length then (1 : ℚ)/2 else 3/5) := by
        rcases Decidable.em (10 ≤ (_tokens f).length) with hl | hl
        · simp only [ge_iff_le, if_pos hl]
          norm_num
        · simp only [ge_iff_le, if_neg hl]
      simp only [if_neg h0, hmax, hthr, decide_eq_true_eq, ge_iff_le]
      exact (and_iff_right h0).symm
  · simp [_feature_hit, if_neg h, h0]

/-- Witness for C3 at concrete inputs: a literal substring hit with an empty
token set, and a fuzzy hit established through the threshold criterion. -/
theorem C3_matcher_hit_rule_witness :
    _feature_hit "grounding" "must emphasize grounding in the timeline" [] = true ∧
    _feature_hit "cite screenshot ids exactly" "please cite every screenshot only exactly once"
      ["cite", "screenshot", "exactly", "once"] = true := by
  constructor
  · exact (C3_matcher_hit_rule "grounding" "must emphasize grounding in the timeline" []).1
      (by decide)
  · refine ((C3_matcher_hit_rule "cite screenshot ids exactly"
      "please cite every screenshot only exactly once"
      ["cite", "screenshot", "exactly", "once"]).2.1 (by decide)).mpr ⟨by decide, ?_⟩
    have h4 : _tokens "cite screenshot ids exactly" = ["cite", "screenshot", "ids", "exactly"] := by
      decide
    have h5 : ((["cite", "screenshot", "ids", "exactly"] : List String).filter
        (fun tok => (["cite", "screenshot", "exactly", "once"] : List String).contains tok)).length
        = 3 := by decide
    rw [h4, h5]
    norm_num

/-! ### Helper lemmas for the Scorer -/

/-- Values inserted by `dictInsert` stay nonnegative when the map was
nonnegative and the inserted value is. -/
lemma dictInsert_nonneg {m : List (String × ℚ)} {k : String} {v : ℚ}
    (hm : ∀ p ∈ m, 0 ≤ p.2) (hv : 0 ≤ v) :
    ∀ p ∈ dictInsert m k v, 0 ≤ p.2 := by
  intro p hp
  unfold dictInsert at hp
  split at hp
  · obtain ⟨q, hq, hpq⟩ := List.mem_map.mp hp
    split at hpq
    · subst hpq
      exact hv
    · subst hpq
      exact hm q hq
  · rcases List.mem_append.mp hp with h | h
    · exact hm p h
    · simp only [List.mem_singleton] at h
      subst h
      exact hv

/-- Every weight stored by `_build_weights_map` is nonnegative. -/
lemma build_weights_nonneg (fw : List (String × ℚ)) :
    ∀ p ∈ _build_weights_map fw, 0 ≤ p.2 := by
  have main : ∀ (l m : List (String × ℚ)), (∀ p ∈ m, 0 ≤ p.2) →
      ∀ p ∈ l.foldl (fun m kv =>
        let w := max 0 kv.2
        let norm_key := pyLower (pyStrip kv.1)
        if norm_key = "" then m else dictInsert m norm_key w) m, 0 ≤ p.2 := by
    intro l
    induction l with
    | nil => intro m hm; simpa using hm
    | cons kv rest ih =>
      intro m hm
      simp only [List.foldl_cons]
      apply ih
      by_cases hk : pyLower (pyStrip kv.1) = ""
      · simpa [hk] using hm
      · simpa [hk] using dictInsert_nonneg hm (le_max_left 0 kv.2)
  exact main fw [] (by simp)

/-- `dict.get` with a nonnegative default from a nonnegative map is
nonnegative. -/
lemma dict_getD_nonneg {m : List (String × ℚ)} {k : String} {d : ℚ}
    (hm : ∀ p ∈ m, 0 ≤ p.2) (hd : 0 ≤ d) : 0 ≤ dict_getD m k d := by
  unfold dict_getD
  split
  · next p hf => exact hm p (List.mem_of_find?_eq_some hf)
  · exact hd

/-- The weight assigned to any feature by a built weights map is
nonnegative. -/
lemma feature_weight_nonneg (fw : List (String × ℚ)) (f : String) :
    0 ≤ feature_weight (_build_weights_map fw) f :=
  dict_getD_nonneg (build_weights_nonneg fw) (by norm_num)

/-- Banker's rounding of a nonnegative rational is nonnegative. -/
lemma pyRound_nonneg {x : ℚ} (hx : 0 ≤ x) : 0 ≤ pyRound x := by
  simp only [pyRound]
  have hf : (0 : ℤ) ≤ ⌊x⌋ := Int.floor_nonneg.mpr hx
  split_ifs <;> omega

/-- Banker's rounding never exceeds an integer upper bound of its input. -/
lemma pyRound_le {x : ℚ} {n : ℤ} (hx : x ≤ n) : pyRound x ≤ n := by
  simp only [pyRound]
  have hf : ⌊x⌋ ≤ n := by
    have := Int.floor_le_floor hx
    simpa using this
  have hflt : (1 : ℚ)/2 ≤ x - ⌊x⌋ → ⌊x⌋ < n := by
    intro hr
    by_contra hge
    push_neg at hge
    have h1 : (n : ℚ) ≤ ⌊x⌋ := by exact_mod_cast hge
    have h2 : (⌊x⌋ : ℚ) < x := by linarith
    have h3 : x ≤ (n : ℚ) := hx
    linarith
  split_ifs with h1 h2 h3
  · exact hf
  · exact hflt (le_of_lt h2)
  · exact hf
  · exact hflt (not_lt.mp h1)

/-- `round(x, 4)` of a nonnegative rational is nonnegative. -/
lemma round4_nonneg {x : ℚ} (hx : 0 ≤ x) : 0 ≤ round4 x := by
  unfold round4
  have h : (0 : ℤ) ≤ pyRound (x * 10000) := pyRound_nonneg (by positivity)
  have h2 : (0 : ℚ) ≤ (pyRound (x * 10000) : ℚ) := by exact_mod_cast h
  positivity

/-- `round(x, 4)` of a rational at most one is at most one. -/
lemma round4_le_one {x : ℚ} (hx : x ≤ 1) : round4 x ≤ 1 := by
  unfold round4
  have h : pyRound (x * 10000) ≤ (10000 : ℤ) := pyRound_le (by push_cast; linarith)
  have h2 : (pyRound (x * 10000) : ℚ) ≤ 10000 := by exact_mod_cast h
  rw [div_le_one (by norm_num)]
  exact h2

/-- The `_analyze_output` feature loop computes the filtered hit/miss lists
over stripped non-blank features together with the specified weight sums. -/
lemma analyze_output_loop_eq (lowered : String) (ctoks : List String)
    (wm : List (String × ℚ)) (features : List String) :
    _analyze_output_loop lowered ctoks wm features =
      ⟨(nonblank_features features).filter (fun f => _feature_hit f lowered ctoks),
       (nonblank_features features).filter (fun f => !(_feature_hit f lowered ctoks)),
       hit_weight_spec wm features lowered ctoks,
       total_weight_spec wm features⟩ := by
  induction features with
  | nil => simp [_analyze_output_loop, nonblank_features, hit_weight_spec, total_weight_spec]
  | cons feature rest ih =>
    simp only [_analyze_output_loop, ih]
    by_cases hb : pyStrip feature = ""
    · simp [nonblank_features, hit_weight_spec, total_weight_spec, hb]
    · by_cases hh : _feature_hit (pyStrip feature) lowered ctoks = true
      · simp [nonblank_features, hit_weight_spec, total_weight_spec, feature_weight,
          hb, hh, LoopAcc.mk.injEq]
        constructor <;> ring
      · simp only [Bool.not_eq_true] at hh
        simp [nonblank_features, hit_weight_spec, total_weight_spec, feature_weight,
          hb, hh, LoopAcc.mk.injEq]
        ring

/-- The `_analyze_with_base` feature loop keeps the original feature
strings, classifying by the stripped text, with the specified weight sums. -/
lemma analyze_with_base_loop_eq (combined_lower : String) (ctoks : List String)
    (wm : List (String × ℚ)) (features : List String) :
    _analyze_with_base_loop combined_lower ctoks wm features =
      ⟨(nonblank_orig features).filter
          (fun f => _feature_hit (pyStrip f) combined_lower ctoks),
       (nonblank_orig features).filter
          (fun f => !(_feature_hit (pyStrip f) combined_lower ctoks)),
       hit_weight_base wm features combined_lower ctoks,
       total_weight_base wm features⟩ := by
  induction features with
  | nil => simp [_analyze_with_base_loop, nonblank_orig, hit_weight_base, total_weight_base]
  | cons feature rest ih =>
    simp only [_analyze_with_base_loop, ih]
    by_cases hb : pyStrip feature = ""
    · simp [nonblank_orig, hit_weight_base, total_weight_base, hb]
    · by_cases hh : _feature_hit (pyStrip feature) combined_lower ctoks = true
      · simp [nonblank_orig, hit_weight_base, total_weight_base, feature_weight,
          hb, hh, LoopAcc.mk.injEq]
        constructor <;> ring
      · simp only [Bool.not_eq_true] at hh
        simp [nonblank_orig, hit_weight_base, total_weight_base, feature_weight,
          hb, hh, LoopAcc.mk.injEq]
        ring

/-- Coverage, as defined from the weight sums, lies in `[0, 1]` whenever the
hit weight is nonnegative and at most the total weight. -/
lemma coverage_of_bounds {hw tw : ℚ} (h0 : 0 ≤ hw) (hle : hw ≤ tw) :
    0 ≤ coverage_of hw tw ∧ coverage_of hw tw ≤ 1 := by
  unfold coverage_of
  split_ifs with ht
  · have htpos : 0 < tw := lt_trans (by norm_num) ht
    exact ⟨div_nonneg h0 htpos.le, by rw [div_le_one htpos]; exact hle⟩
  · norm_num

/-- The hit weight is nonnegative and bounded by the total weight
(`_analyze_output` shape). -/
lemma hit_le_total_spec (fw : List (String × ℚ)) (features : List String)
    (lowered : String) (ctoks : List String) :
    0 ≤ hit_weight_spec (_build_weights_map fw) features lowered ctoks ∧
    hit_weight_spec (_build_weights_map fw) features lowered ctoks ≤
      total_weight_spec (_build_weights_map fw) features := by
  have hnn : ∀ a ∈ (nonblank_features features).map (feature_weight (_build_weights_map fw)),
      0 ≤ a := by
    intro a ha
    obtain ⟨f, _, rfl⟩ := List.mem_map.mp ha
    exact feature_weight_nonneg fw f
  refine ⟨List.sum_nonneg ?_, ?_⟩
  · intro a ha
    obtain ⟨f, _, rfl⟩ := List.mem_map.mp ha
    exact feature_weight_nonneg fw f
  · exact List.Sublist.sum_le_sum (List.Sublist.map _ (List.filter_sublist _)) hnn

/-- The hit weight is nonnegative and bounded by the total weight
(`_analyze_with_base` shape). -/
lemma hit_le_total_base (fw : List (String × ℚ)) (features : List String)
    (combined_lower : String) (ctoks : List String) :
    0 ≤ hit_weight_base (_build_weights_map fw) features combined_lower ctoks ∧
    hit_weight_base (_build_weights_map fw) features combined_lower ctoks ≤
      total_weight_base (_build_weights_map fw) features := by
  have hnn : ∀ a ∈ (nonblank_orig features).map
      (fun f => feature_weight (_build_weights_map fw) (pyStrip f)), 0 ≤ a := by
    intro a ha
    obtain ⟨f, _, rfl⟩ := List.mem_map.mp ha
    exact feature_weight_nonneg fw (pyStrip f)
  refine ⟨List.sum_nonneg ?_, ?_⟩
  · intro a ha
    obtain ⟨f, _, rfl⟩ := List.mem_map.mp ha
    exact feature_weight_nonneg fw (pyStrip f)
  · exact List.Sublist.sum_le_sum (List.Sublist.map _ (List.filter_sublist _)) hnn

/-- Closed form of `_analyze_output` in terms of the spec-side quantities. -/
lemma analyze_output_eq (pr : Option ParsedPrompt) (raw : String)
    (features : List String) (jb : ℚ) (fw : List (String × ℚ)) :
    _analyze_output pr raw features jb fw =
      { score := round4 (min 1
          (coverage_of
            (hit_weight_spec (_build_weights_map fw) features
              (_normalize_for_match (output_doc pr raw))
              (_tokens (_normalize_for_match (output_doc pr raw))))
            (total_weight_spec (_build_weights_map fw) features) + output_bonus pr jb))
        coverage := round4 (coverage_of
          (hit_weight_spec (_build_weights_map fw) features
            (_normalize_for_match (output_doc pr raw))
            (_tokens (_normalize_for_match (output_doc pr raw))))
          (total_weight_spec (_build_weights_map fw) features))
        satisfied := (nonblank_features features).filter
          (fun f => _feature_hit f (_normalize_for_match (output_doc pr raw))
            (_tokens (_normalize_for_match (output_doc pr raw))))
        missing := (nonblank_features features).filter
          (fun f => !(_feature_hit f (_normalize_for_match (output_doc pr raw))
            (_tokens (_normalize_for_match (output_doc pr raw)))))
        satisfiedCount := none
        parsed := some pr.isSome } := by
  cases pr with
  | none =>
    simp only [_analyze_output, analyze_output_loop_eq, output_doc, output_bonus, coverage_of]
  | some p =>
    simp only [_analyze_output, analyze_output_loop_eq, output_doc, output_bonus, coverage_of]

/-- Closed form of `_analyze_with_base` in terms of the spec-side
quantities. -/
lemma analyze_with_base_eq (combined_lower : String) (features : List String)
    (wm : List (String × ℚ)) (jb : ℚ) :
    _analyze_with_base combined_lower features wm jb =
      { score := round4 (min 1
          (coverage_of (hit_weight_base wm features combined_lower (_tokens combined_lower))
            (total_weight_base wm features) + jb))
        coverage := round4 (coverage_of
          (hit_weight_base wm features combined_lower (_tokens combined_lower))
          (total_weight_base wm features))
        satisfied := (nonblank_orig features).filter
          (fun f => _feature_hit (pyStrip f) combined_lower (_tokens combined_lower))
        missing := (nonblank_orig features).filter
          (fun f => !(_feature_hit (pyStrip f) combined_lower (_tokens combined_lower)))
        satisfiedCount := some ((nonblank_orig features).filter
          (fun f => _feature_hit (pyStrip f) combined_lower (_tokens combined_lower))).length
        parsed := none } := by
  simp only [_analyze_with_base, analyze_with_base_loop_eq, coverage_of]

/-- C1: for every parse outcome, feature list, weight-override map and
bonus, both `_analyze_output` and `_analyze_with_base` produce a result
whose exact coverage (weighted satisfied fraction, or 1 at total weight
within the 1e-9 cutoff) lies in `[0, 1]`, whose stored coverage is that
value rounded to four decimals and also lies in `[0, 1]`, and whose stored
score is `min 1 (coverage + bonus)` rounded to four decimals, where the
bonus is the clamped JSON bonus on a good parse and zero otherwise for
`_analyze_output`, and the caller-provided bonus for `_analyze_with_base`. -/
theorem C1_scorer_score_coverage_invariant :
    (∀ (pr : Option ParsedPrompt) (raw : String) (features : List String) (jb : ℚ)
        (fw : List (String × ℚ)),
      let wm := _build_weights_map fw
      let lowered := _normalize_for_match (output_doc pr raw)
      let ctoks := _tokens lowered
      let cov := coverage_of (hit_weight_spec wm features lowered ctoks)
        (total_weight_spec wm features)
      let r := _analyze_output pr raw features jb fw
      0 ≤ cov ∧ cov ≤ 1 ∧ r.coverage = round4 cov ∧
        r.score = round4 (min 1 (cov + output_bonus pr jb)) ∧
        0 ≤ r.coverage ∧ r.coverage ≤ 1)
    ∧ (∀ (combined_lower : String) (features : List String) (jb : ℚ)
        (fw : List (String × ℚ)),
      let wm := _build_weights_map fw
      let ctoks := _tokens combined_lower
      let cov := coverage_of (hit_weight_base wm features combined_lower ctoks)
        (total_weight_base wm features)
      let r := _analyze_with_base combined_lower features wm jb
      0 ≤ cov ∧ cov ≤ 1 ∧ r.coverage = round4 cov ∧
        r.score = round4 (min 1 (cov + jb)) ∧
        0 ≤ r.coverage ∧ r.coverage ≤ 1) := by
  constructor
  · intro pr raw features jb fw wm lowered ctoks cov r
    obtain ⟨h0, h1⟩ := hit_le_total_spec fw features lowered ctoks
    obtain ⟨hc0, hc1⟩ := coverage_of_bounds h0 h1
    have hre : r = _analyze_output pr raw features jb fw := rfl
    rw [analyze_output_eq] at hre
    refine ⟨hc0, hc1, ?_, ?_, ?_, ?_⟩
    · rw [hre]
    · rw [hre]
    · rw [hre]
      exact round4_nonneg hc0
    · rw [hre]
      exact round4_le_one hc1
  · intro combined_lower features jb fw wm ctoks cov r
    obtain ⟨h0, h1⟩ := hit_le_total_base fw features combined_lower ctoks
    obtain ⟨hc0, hc1⟩ := coverage_of_bounds h0 h1
    have hre : r = _analyze_with_base combined_lower features wm jb := rfl
    rw [analyze_with_base_eq] at hre
    refine ⟨hc0, hc1, ?_, ?_, ?_, ?_⟩
    · rw [hre]
    · rw [hre]
    · rw [hre]
      exact round4_nonneg hc0
    · rw [hre]
      exact round4_le_one hc1

/-- Inserting a blank feature does not change the stripped non-blank
feature list. -/
lemma nonblank_features_middle (pre post : List String) {b : String}
    (hb : pyStrip b = "") :
    nonblank_features (pre ++ b :: post) = nonblank_features (pre ++ post) := by
  simp [nonblank_features, hb]

/-- C10 (amended): in both analysis results the satisfied and missing lists
together are a permutation of the non-blank features (stripped texts for
`_analyze_output`, original strings for `_analyze_with_base`), so each
non-blank feature lands in exactly one list; a blank feature is dropped
entirely, leaving the whole result unchanged; `_analyze_with_base` stores
`satisfiedCount` equal to the length of its satisfied list, while
`_analyze_output` emits no `satisfiedCount` key at all. -/
theorem C10_satisfied_missing_partition :
    (∀ (pr : Option ParsedPrompt) (raw : String) (features : List String) (jb : ℚ)
        (fw : List (String × ℚ)),
      let r := _analyze_output pr raw features jb fw
      List.Perm (r.satisfied ++ r.missing) (nonblank_features features) ∧
        r.satisfiedCount = none)
    ∧ (∀ (combined_lower : String) (features : List String)
        (wm : List (String × ℚ)) (jb : ℚ),
      let r := _analyze_with_base combined_lower features wm jb
      List.Perm (r.satisfied ++ r.missing) (nonblank_orig features) ∧
        r.satisfiedCount = some r.satisfied.length)
    ∧ (∀ (pr : Option ParsedPrompt) (raw : String) (pre post : List String)
        (b : String) (jb : ℚ) (fw : List (String × ℚ)),
      pyStrip b = "" →
      _analyze_output pr raw (pre ++ b :: post) jb fw =
        _analyze_output pr raw (pre ++ post) jb fw) := by
  refine ⟨?_, ?_, ?_⟩
  · intro pr raw features jb fw r
    have hre : r = _analyze_output pr raw features jb fw := rfl
    rw [analyze_output_eq] at hre
    rw [hre]
    exact ⟨List.filter_append_perm _ _, rfl⟩
  · intro combined_lower features wm jb r
    have hre : r = _analyze_with_base combined_lower features wm jb := rfl
    rw [analyze_with_base_eq] at hre
    rw [hre]
    exact ⟨List.filter_append_perm _ _, rfl⟩
  · intro pr raw pre post b jb fw hb
    rw [analyze_output_eq, analyze_output_eq]
    simp only [hit_weight_spec, total_weight_spec, nonblank_features_middle pre post hb]

/-- Counterexample to C10 as stated: the dict returned by `_analyze_output`
carries no `satisfiedCount` key (only `_analyze_with_base` emits one), so
at this concrete input `satisfiedCount` does not equal the length of the
satisfied list. -/
theorem C10_satisfiedCount_counterexample :
    (_analyze_output none "doc" ["alpha"] 0 []).satisfiedCount ≠
      some (_analyze_output none "doc" ["alpha"] 0 []).satisfied.length := by
  have h : (_analyze_output none "doc" ["alpha"] 0 []).satisfiedCount = none := rfl
  rw [h]
  simp

/-- Witness for C10 at a concrete input: inserting a whitespace-only
feature between two features leaves the whole `_analyze_output` result
unchanged. -/
theorem C10_satisfied_missing_partition_witness :
    _analyze_output none "persona doc" (["alpha"] ++ "   " :: ["beta"]) 0 [] =
      _analyze_output none "persona doc" (["alpha"] ++ ["beta"]) 0 [] :=
  C10_satisfied_missing_partition.2.2 none "persona doc" ["alpha"] ["beta"] "   " 0 []
    (by decide)

/-- C2: for every environment outcome (forced threads, failed health probe,
pool success/timeout/failure/init-failure) the dispatcher returns exactly
the worker's evaluation of every feature set, in order — hence an empty
result list for empty input and one result per feature set otherwise — and,
being a total function, it models a procedure that never raises. -/
theorem C2_dispatcher_always_complete (env : DispatchEnv) (pr : Option ParsedPrompt)
    (raw : String) (fss : List (List String)) (jb : ℚ) (fw : List (String × ℚ))
    (workers batch : ℤ) :
    (_parallel_evaluate_prompt env pr raw fss jb fw workers batch).1 =
      fss.map (fun fs => _parallel_worker (_precompute_prompt_base pr raw jb).1 fs
        (_build_weights_map fw) (_precompute_prompt_base pr raw jb).2)
    ∧ (_parallel_evaluate_prompt env pr raw fss jb fw workers batch).1.length = fss.length := by
  have hmain : (_parallel_evaluate_prompt env pr raw fss jb fw workers batch).1 =
      fss.map (fun fs => _parallel_worker (_precompute_prompt_base pr raw jb).1 fs
        (_build_weights_map fw) (_precompute_prompt_base pr raw jb).2) := by
    by_cases hfs : fss = []
    · subst hfs
      simp [_parallel_evaluate_prompt]
    · simp only [_parallel_evaluate_prompt, if_neg hfs]
      rcases env with ⟨ft, mh, pp, tp⟩
      cases ft <;> cases mh <;>
        rcases pp with - | (- | - | -) <;> rcases tp with - | (- | - | -) <;> rfl
  exact ⟨hmain, by rw [hmain, List.length_map]⟩

/-- C7: a "coverageThreshold" snapshot is appended to the primary
best-prompts store exactly when the sample's coverage is at least 0.8 and
its raw score is at least the running best raw score as it stood before
this sample's own best-tracking update — although the source checks
against the tracker after the update, the two conditions coincide, so ties
with the running best still trigger the append. -/
theorem C7_coverage_threshold_tie_rule (bt : BestTracker) (raw adj cov : ℚ)
    (iter stage : ℤ) :
    (metric_step bt raw adj cov iter stage true).2 =
      (if cov ≥ 8/10 ∧ raw ≥ bt.raw then
        [⟨raw, adj, cov, iter, stage, "coverageThreshold"⟩] else []) := by
  simp only [metric_step]
  by_cases himp : raw > bt.raw
  · simp only [if_pos himp]
    by_cases hc : cov ≥ 8/10
    · simp [hc, le_refl, le_of_lt himp]
    · simp [hc]
  · simp only [if_neg himp]
    simp

/-- C6: after pruning, no surviving record scores below the threshold; when
the age check is enabled (positive `max_age_days`) no survivor is older
than `max_age_days` days; `max_age_days = 0` disables the age check
entirely; and the returned counts satisfy `before = after + removed` with
`after` the number of survivors. -/
theorem C6_prune_invariants (items : List ExpRecord) (thr : ℚ) (maxAge : ℤ) (now : ℚ) :
    let res := _prune_experiences items thr maxAge now
    (∀ r ∈ res.kept, ¬ r.score < thr)
    ∧ (0 < maxAge → ∀ r ∈ res.kept, ¬ now - r.ts > ((maxAge * 86400 : ℤ) : ℚ))
    ∧ res.before = res.after + res.removed
    ∧ res.after = res.kept.length
    ∧ (maxAge = 0 → res.kept = items.filter (fun it => !decide (it.score < thr))) := by
  intro res
  have hkept : res.kept = items.filter (fun it =>
      !(decide (it.score < thr) ||
        (decide (max 0 maxAge * 86400 > 0) && decide (now - it.ts > ((max 0 maxAge * 86400 : ℤ) : ℚ))))) := rfl
  have hmem : ∀ r ∈ res.kept, ¬ r.score < thr ∧
      ¬ (max 0 maxAge * 86400 > 0 ∧ now - r.ts > ((max 0 maxAge * 86400 : ℤ) : ℚ)) := by
    intro r hr
    rw [hkept] at hr
    have hp := List.of_mem_filter hr
    simp only [Bool.not_eq_true', Bool.or_eq_false_iff, Bool.and_eq_false_iff,
      decide_eq_false_iff_not] at hp
    obtain ⟨h1, h2⟩ := hp
    refine ⟨h1, ?_⟩
    rintro ⟨hg, ha⟩
    rcases h2 with h2 | h2
    · exact h2 hg
    · exact h2 ha
  refine ⟨fun r hr => (hmem r hr).1, ?_, ?_, rfl, ?_⟩
  · intro hpos r hr
    have h := (hmem r hr).2
    have hmax : max 0 maxAge = maxAge := max_eq_right hpos.le
    rw [hmax] at h
    intro hage
    exact h ⟨by positivity, hage⟩
  · have hle : res.kept.length ≤ items.length := by
      rw [hkept]
      exact List.length_filter_le _ _
    have hb : res.before = items.length := rfl
    have ha2 : res.after = res.kept.length := rfl
    have hrm : res.removed = items.length - res.kept.length := rfl
    omega
  · intro h0
    rw [hkept, h0]
    apply List.filter_congr
    intro it _
    norm_num

/-- Witness for C6 at a concrete store: the surviving record of a concrete
prune call satisfies both the score bound and the age bound. -/
theorem C6_prune_invariants_witness :
    (¬ (⟨some "exp-1", 100, "tutorial", "ctx", "brief", 2, true, some 0⟩ : ExpRecord).score < 1)
    ∧ (¬ (1000 : ℚ) -
        (⟨some "exp-1", 100, "tutorial", "ctx", "brief", 2, true, some 0⟩ : ExpRecord).ts >
        (((30 : ℤ) * 86400 : ℤ) : ℚ)) := by
  have hmem : (⟨some "exp-1", 100, "tutorial", "ctx", "brief", 2, true, some 0⟩ : ExpRecord) ∈
      (_prune_experiences [⟨some "exp-1", 100, "tutorial", "ctx", "brief", 2, true, some 0⟩]
        1 30 1000).kept := by
    refine List.mem_filter.mpr ⟨by simp, ?_⟩
    simp only [Bool.not_eq_true', Bool.or_eq_false_iff, Bool.and_eq_false_iff,
      decide_eq_false_iff_not]
    constructor
    · norm_num
    · right
      norm_num
  have h := C6_prune_invariants
    [⟨some "exp-1", 100, "tutorial", "ctx", "brief", 2, true, some 0⟩] 1 30 1000
  exact ⟨h.1 _ hmem, h.2.1 (by decide) _ hmem⟩

/-- C8 (amended): on a configured path, `_append_experience` defaults the
id to the fresh uuid when missing (or empty, by Python falsiness) and the
usage count to zero when absent, leaves every other field unchanged, and
then performs a single plain append of that one row — the new store is the
old store with one row appended, the existing rows untouched — and its
file-operation trace is exactly one line written, with no lock operation
(the source opens the file in append mode without `_file_lock_context`). -/
theorem C8_append_experience_behavior (store : List ExpRecord) (record : ExpRecord)
    (fresh_id : String) :
    ∃ record2 : ExpRecord,
      (_append_experience store record fresh_id true).1 = store ++ [record2]
      ∧ (_append_experience store record fresh_id true).2 = [FileOp.writeLine record2]
      ∧ record2.id = (if record.id = none ∨ record.id = some "" then some fresh_id
          else record.id)
      ∧ record2.usageCount = (if record.usageCount = none then some 0 else record.usageCount)
      ∧ record2.ts = record.ts ∧ record2.schemaType = record.schemaType
      ∧ record2.score = record.score ∧ record2.parsed = record.parsed
      ∧ record2.context_summary = record.context_summary
      ∧ record2.optimization_brief = record.optimization_brief := by
  simp only [_append_experience, Bool.not_true, Bool.false_eq_true, if_false]
  by_cases h1 : record.id = none ∨ record.id = some ""
  · by_cases h2 : record.usageCount = none
    · refine ⟨_, rfl, rfl, ?_⟩
      simp [h1, h2]
    · refine ⟨_, rfl, rfl, ?_⟩
      simp [h1, h2]
  · by_cases h2 : record.usageCount = none
    · refine ⟨_, rfl, rfl, ?_⟩
      simp [h1, h2]
    · refine ⟨_, rfl, rfl, ?_⟩
      simp [h1, h2]

/-- Counterexample to C8 as stated: the claim calls the append "locked",
but the file-operation trace of `_append_experience` at a concrete input
contains no lock acquisition (the source's sibling append helpers lock;
this one opens the file in append mode and writes directly). -/
theorem C8_append_no_lock_counterexample :
    FileOp.lockAcquire ∉
      (_append_experience [] ⟨none, 0, "tutorial", "ctx", "brief", 1, true, none⟩
        "id-1" true).2 := by
  decide

/-- C5 (amended): for a capacity of at least one, after the eviction pass
no surviving entry is older than the TTL, at most `max_entries` entries
survive, and the dropped non-expired entries are exactly a batch whose LRU
keys (`lastAccess`, falling back to `ts`) are all at most those of every
survivor. (For `max_entries = 0` the Python slice `kept[-0:]` keeps the
whole list, so the capacity bound fails there; see the counterexample.) -/
theorem C5_cache_evict_lru (items : List CacheEntry) (ttl max_entries : ℤ) (now : ℚ)
    (hmax : 1 ≤ max_entries) :
    (∀ e ∈ _cache_evict_and_prune items ttl max_entries now, now - e.ts ≤ (ttl : ℚ))
    ∧ ((_cache_evict_and_prune items ttl max_entries now).length : ℤ) ≤ max_entries
    ∧ ∃ dropped : List CacheEntry,
        List.Perm (dropped ++ _cache_evict_and_prune items ttl max_entries now)
          (items.filter (fun it => decide (now - it.ts ≤ (ttl : ℚ))))
        ∧ ∀ d ∈ dropped, ∀ k ∈ _cache_evict_and_prune items ttl max_entries now,
            _cache_sort_key d ≤ _cache_sort_key k := by
  set le : CacheEntry → CacheEntry → Bool :=
    fun a b => decide (_cache_sort_key a ≤ _cache_sort_key b) with hle
  set fresh := items.filter (fun it => decide (now - it.ts ≤ (ttl : ℚ))) with hfreshdef
  have hexp : ∀ e ∈ fresh, now - e.ts ≤ (ttl : ℚ) := by
    intro e he
    have := List.of_mem_filter he
    simpa using this
  have hchar : _cache_evict_and_prune items ttl max_entries now =
      (if (fresh.length : ℤ) > max_entries then
        pySliceFrom (fresh.mergeSort le) (-max_entries) else fresh) := rfl
  rw [hchar]
  by_cases hbig : (fresh.length : ℤ) > max_entries
  · rw [if_pos hbig]
    set sorted := fresh.mergeSort le with hsorteddef
    have hneg : -max_entries < 0 := by omega
    have hslice : pySliceFrom sorted (-max_entries) =
        sorted.drop ((sorted.length : ℤ) + -max_entries).toNat := by
      simp only [pySliceFrom, if_pos hneg]
    rw [hslice]
    have hsperm : List.Perm sorted fresh := List.mergeSort_perm fresh le
    have hslen : sorted.length = fresh.length := hsperm.length_eq
    have htrans : ∀ a b c : CacheEntry, le a b → le b c → le a c := by
      intro a b c h1 h2
      simp only [hle, decide_eq_true_eq] at h1 h2 ⊢
      exact le_trans h1 h2
    have htotal : ∀ a b : CacheEntry, le a b || le b a := by
      intro a b
      simp only [hle, Bool.or_eq_true, decide_eq_true_eq]
      exact le_total _ _
    have hpair : sorted.Pairwise (fun a b => _cache_sort_key a ≤ _cache_sort_key b) := by
      have hp := List.sorted_mergeSort htrans htotal fresh
      exact hp.imp (fun h => by simpa [hle] using h)
    refine ⟨?_, ?_, ?_⟩
    · intro e he
      exact hexp e (hsperm.mem_iff.mp (List.mem_of_mem_drop he))
    · have hd := List.length_drop ((sorted.length : ℤ) + -max_entries).toNat sorted
      have htn : (((sorted.length : ℤ) + -max_entries).toNat : ℤ) =
          (sorted.length : ℤ) + -max_entries := Int.toNat_of_nonneg (by omega)
      omega
    · refine ⟨sorted.take ((sorted.length : ℤ) + -max_entries).toNat, ?_, ?_⟩
      · rw [List.take_append_drop]
        exact hsperm
      · intro d hd k hk
        have hpair2 : (sorted.take ((sorted.length : ℤ) + -max_entries).toNat ++
            sorted.drop ((sorted.length : ℤ) + -max_entries).toNat).Pairwise
            (fun a b => _cache_sort_key a ≤ _cache_sort_key b) := by
          rw [List.take_append_drop]
          exact hpair
        exact (List.pairwise_append.mp hpair2).2.2 d hd k hk
  · rw [if_neg hbig]
    refine ⟨hexp, by omega, [], by simp, ?_⟩
    intro d hd
    simp at hd

/-- Counterexample to C5 as stated: with `max_entries = 0` the slice
`kept[-0:]` is `kept[0:]`, the whole list, so one non-expired entry
survives a capacity of zero and the "at most maxEntries survive" clause
fails. -/
theorem C5_max_entries_zero_counterexample :
    ¬ (((_cache_evict_and_prune [⟨"k", 0, none⟩] 100 0 0).length : ℤ) ≤ 0) := by
  intro hcl
  have h1 : (0 : ℚ) - (⟨"k", (0 : ℚ), none⟩ : CacheEntry).ts ≤ ((100 : ℤ) : ℚ) := by norm_num
  have hfilter : List.filter (fun it : CacheEntry => decide (0 - it.ts ≤ ((100 : ℤ) : ℚ)))
      [⟨"k", 0, none⟩] = [⟨"k", 0, none⟩] := by
    simp [h1]
  have hres : _cache_evict_and_prune [⟨"k", 0, none⟩] 100 0 0 = [⟨"k", 0, none⟩] := by
    simp only [_cache_evict_and_prune, hfilter]
    norm_num [pySliceFrom]
  rw [hres] at hcl
  norm_num at hcl

/-- Witness for C5 at a concrete store: with capacity one, one entry fresh
and one expired, at most one entry survives the eviction pass. -/
theorem C5_cache_evict_lru_witness :
    ((_cache_evict_and_prune [⟨"a", 10, none⟩, ⟨"b", 0, none⟩] 50 1 60).length : ℤ) ≤ 1 :=
  (C5_cache_evict_lru [⟨"a", 10, none⟩, ⟨"b", 0, none⟩] 50 1 60 (by norm_num)).2.1

/-- C4: every record returned by `_retrieve_experiences` matches the
query's schema type, is parsed, and scores at least `min_score`; the result
holds at most `top_k` records, is ranked descending by the blended weight
`0.7·similarity + 0.2·score + 0.1·recencyBonus + usageBonus`, and the
candidates left out all weigh at most every returned record (the returned
records are the top `top_k` candidates). -/
theorem C4_retrieve_ranked (items : List ExpRecord) (schema_type query : String)
    (top_k : ℤ) (min_score now : ℚ) :
    (∀ r ∈ _retrieve_experiences items schema_type query top_k min_score now,
      r.schemaType = schema_type ∧ r.parsed = true ∧ min_score ≤ r.score)
    ∧ (_retrieve_experiences items schema_type query top_k min_score now).length ≤ top_k.toNat
    ∧ List.Pairwise
        (fun a b => _exp_weight (_text2bow query) now b ≤ _exp_weight (_text2bow query) now a)
        (_retrieve_experiences items schema_type query top_k min_score now)
    ∧ ∃ rest : List ExpRecord,
        List.Perm (_retrieve_experiences items schema_type query top_k min_score now ++ rest)
          (items.filter (exp_candidate schema_type min_score))
        ∧ ∀ d ∈ rest, ∀ k ∈ _retrieve_experiences items schema_type query top_k min_score now,
            _exp_weight (_text2bow query) now d ≤ _exp_weight (_text2bow query) now k := by
  have hcand : ∀ r ∈ items.filter (exp_candidate schema_type min_score),
      r.schemaType = schema_type ∧ r.parsed = true ∧ min_score ≤ r.score := by
    intro r hr
    have hp := List.of_mem_filter hr
    simp only [exp_candidate, Bool.and_eq_true, beq_iff_eq, decide_eq_true_eq] at hp
    exact ⟨hp.1.1, hp.1.2, hp.2⟩
  by_cases hk : top_k ≤ 0
  · have hres : _retrieve_experiences items schema_type query top_k min_score now = [] := by
      simp only [_retrieve_experiences, if_pos hk]
    rw [hres]
    refine ⟨by simp, by simp, by simp, items.filter (exp_candidate schema_type min_score),
      by simp, ?_⟩
    intro d _ k hk2
    simp at hk2
  · set w := _exp_weight (_text2bow query) now with hw
    set le : ExpRecord → ExpRecord → Bool := fun a b => decide (w b ≤ w a) with hle
    set candidates := items.filter (exp_candidate schema_type min_score) with hcdef
    have hres : _retrieve_experiences items schema_type query top_k min_score now =
        (candidates.mergeSort le).take top_k.toNat := by
      simp only [_retrieve_experiences, if_neg hk]
    rw [hres]
    set sorted := candidates.mergeSort le with hsdef
    have hsperm : List.Perm sorted candidates := List.mergeSort_perm candidates le
    have htrans : ∀ a b c : ExpRecord, le a b → le b c → le a c := by
      intro a b c h1 h2
      simp only [hle, decide_eq_true_eq] at h1 h2 ⊢
      exact le_trans h2 h1
    have htotal : ∀ a b : ExpRecord, le a b || le b a := by
      intro a b
      simp only [hle, Bool.or_eq_true, decide_eq_true_eq]
      exact le_total _ _
    have hpair : sorted.Pairwise (fun a b => w b ≤ w a) := by
      have hp := List.sorted_mergeSort htrans htotal candidates
      exact hp.imp (fun h => by simpa [hle] using h)
    refine ⟨?_, ?_, ?_, sorted.drop top_k.toNat, ?_, ?_⟩
    · intro r hr
      exact hcand r (hsperm.mem_iff.mp (List.mem_of_mem_take hr))
    · exact List.length_take_le top_k.toNat sorted
    · exact hpair.sublist (List.take_sublist _ _)
    · rw [List.take_append_drop]
      exact hsperm
    · intro d hd k hk2
      have hpair2 : (sorted.take top_k.toNat ++ sorted.drop top_k.toNat).Pairwise
          (fun a b => w b ≤ w a) := by
        rw [List.take_append_drop]
        exact hpair
      exact (List.pairwise_append.mp hpair2).2.2 k hk2 d hd

/-- Witness for C4 at a concrete store: the record returned by a concrete
retrieval matches the queried schema type, is parsed, and meets the score
floor. -/
theorem C4_retrieve_ranked_witness :
    (⟨some "e1", 90, "tutorial", "ctx", "brief", 1, true, some 0⟩ : ExpRecord).schemaType =
      "tutorial"
    ∧ (⟨some "e1", 90, "tutorial", "ctx", "brief", 1, true, some 0⟩ : ExpRecord).parsed = true
    ∧ (0 : ℚ) ≤ (⟨some "e1", 90, "tutorial", "ctx", "brief", 1, true, some 0⟩ : ExpRecord).score := by
  have hc : exp_candidate "tutorial" 0
      (⟨some "e1", 90, "tutorial", "ctx", "brief", 1, true, some 0⟩ : ExpRecord) = true := by
    decide
  have hres : _retrieve_experiences
      [⟨some "e1", 90, "tutorial", "ctx", "brief", 1, true, some 0⟩] "tutorial" "" 2 0 100 =
      [⟨some "e1", 90, "tutorial", "ctx", "brief", 1, true, some 0⟩] := by
    simp only [_retrieve_experiences]
    rw [if_neg (by norm_num : ¬ (2 : ℤ) ≤ 0)]
    simp [hc]
  exact (C4_retrieve_ranked
    [⟨some "e1", 90, "tutorial", "ctx", "brief", 1, true, some 0⟩] "tutorial" "" 2 0 100).1 _
    (by rw [hres]; exact List.mem_singleton_self _)

/-- `canonObj` is the map canonicalizing each field's value. -/
lemma canonObj_eq_map (l : List (String × JValue)) :
    canonObj l = l.map (fun p => (p.1, canon p.2)) := by
  induction l with
  | nil => simp [canonObj]
  | cons p t ih =>
    obtain ⟨k, v⟩ := p
    simp [canonObj, ih]

/-- Two permuted field lists with duplicate-free keys sort by key to the
same list. -/
lemma mergeSort_key_eq_of_perm {l₁ l₂ : List (String × JValue)} (h : List.Perm l₁ l₂)
    (hnd : (l₁.map Prod.fst).Nodup) :
    l₁.mergeSort (fun a b => decide (a.1 ≤ b.1)) =
      l₂.mergeSort (fun a b => decide (a.1 ≤ b.1)) := by
  set le : (String × JValue) → (String × JValue) → Bool :=
    fun a b => decide (a.1 ≤ b.1) with hle
  have htrans : ∀ a b c : String × JValue, le a b → le b c → le a c := by
    intro a b c h1 h2
    simp only [hle, decide_eq_true_eq] at h1 h2 ⊢
    exact le_trans h1 h2
  have htotal : ∀ a b : String × JValue, le a b || le b a := by
    intro a b
    simp only [hle, Bool.or_eq_true, decide_eq_true_eq]
    exact le_total _ _
  have hp₁ : (l₁.mergeSort le).Pairwise (fun a b => a.1 ≤ b.1) :=
    (List.sorted_mergeSort htrans htotal l₁).imp (fun hx => by simpa [hle] using hx)
  have hp₂ : (l₂.mergeSort le).Pairwise (fun a b => a.1 ≤ b.1) :=
    (List.sorted_mergeSort htrans htotal l₂).imp (fun hx => by simpa [hle] using hx)
  have hnd₂ : (l₂.map Prod.fst).Nodup := ((h.map Prod.fst).nodup_iff).mp hnd
  have hndm₁ : ((l₁.mergeSort le).map Prod.fst).Nodup :=
    (((List.mergeSort_perm l₁ le).map Prod.fst).nodup_iff).mpr hnd
  have hndm₂ : ((l₂.mergeSort le).map Prod.fst).Nodup :=
    (((List.mergeSort_perm l₂ le).map Prod.fst).nodup_iff).mpr hnd₂
  have hlt₁ : (l₁.mergeSort le).Pairwise (fun a b => a.1 < b.1) := by
    have hne : (l₁.mergeSort le).Pairwise (fun a b => a.1 ≠ b.1) := by
      rw [List.Nodup, List.pairwise_map] at hndm₁
      exact hndm₁
    exact (hp₁.and hne).imp (fun x => lt_of_le_of_ne x.1 x.2)
  have hlt₂ : (l₂.mergeSort le).Pairwise (fun a b => a.1 < b.1) := by
    have hne : (l₂.mergeSort le).Pairwise (fun a b => a.1 ≠ b.1) := by
      rw [List.Nodup, List.pairwise_map] at hndm₂
      exact hndm₂
    exact (hp₂.and hne).imp (fun x => lt_of_le_of_ne x.1 x.2)
  have hperm : List.Perm (l₁.mergeSort le) (l₂.mergeSort le) :=
    (List.mergeSort_perm l₁ le).trans (h.trans (List.mergeSort_perm l₂ le).symm)
  haveI : IsAntisymm (String × JValue) (fun a b => a.1 < b.1) :=
    ⟨fun a b h1 h2 => absurd h1 (lt_asymm h2)⟩
  exact List.eq_of_perm_of_sorted hperm hlt₁ hlt₂

mutual
/-- Equivalent JSON values have the same canonical form. -/
theorem equivJ_canon : ∀ {a b : JValue}, EquivJ a b → canon a = canon b
  | _, _, .null => rfl
  | _, _, .bool _ => rfl
  | _, _, .num _ => rfl
  | _, _, .str _ => rfl
  | _, _, .arr h => by
    simp only [canon]
    exact congrArg JValue.arr (equivArr_canon h)
  | _, _, @EquivJ.obj f₁ f₂ f₂' hperm hnd hobj => by
    simp only [canon]
    have h1 : canonObj f₁ = canonObj f₂' := equivObj_canon hobj
    have h2 : List.Perm (canonObj f₂') (canonObj f₂) := by
      rw [canonObj_eq_map, canonObj_eq_map]
      exact hperm.map _
    have hnd1 : ((canonObj f₁).map Prod.fst).Nodup := by
      rw [canonObj_eq_map, List.map_map]
      simpa using hnd
    exact congrArg JValue.obj (mergeSort_key_eq_of_perm (h1 ▸ h2) hnd1)
/-- Pointwise equivalent arrays canonicalize pointwise. -/
theorem equivArr_canon : ∀ {l₁ l₂ : List JValue}, EquivArr l₁ l₂ → canonArr l₁ = canonArr l₂
  | _, _, .nil => rfl
  | _, _, .cons h t => by
    simp only [canonArr]
    rw [equivJ_canon h, equivArr_canon t]
/-- Pointwise equivalent field lists canonicalize to equal lists. -/
theorem equivObj_canon : ∀ {l₁ l₂ : List (String × JValue)},
    EquivObj l₁ l₂ → canonObj l₁ = canonObj l₂
  | (k₁, v₁) :: _, (k₂, v₂) :: _, .cons hk hv ht => by
    simp only [canonObj]
    rw [show k₁ = k₂ from hk, equivObj_canon ht, equivJ_canon hv]
  | _, _, .nil => rfl
end

/-- In a field list with duplicate-free keys, two members with the same key
are the same pair. -/
lemma mem_key_inj {l : List (String × JValue)} (hnd : (l.map Prod.fst).Nodup)
    {a b : String × JValue} (ha : a ∈ l) (hb : b ∈ l) (hk : a.1 = b.1) : a = b := by
  induction l with
  | nil => simp at ha
  | cons x t ih =>
    simp only [List.map_cons, List.nodup_cons] at hnd
    rcases List.mem_cons.mp ha with rfl | ha2
    · rcases List.mem_cons.mp hb with rfl | hb2
      · rfl
      · exact absurd (by rw [hk]; exact List.mem_map_of_mem Prod.fst hb2) hnd.1
    · rcases List.mem_cons.mp hb with rfl | hb2
      · exact absurd (by rw [← hk]; exact List.mem_map_of_mem Prod.fst ha2) hnd.1
      · exact ih hnd.2 ha2 hb2

/-- `dict.get` is insensitive to the dict's field order when keys are
duplicate-free. -/
lemma jGet_perm {p₁ p₂ : List (String × JValue)} (h : List.Perm p₁ p₂)
    (hnd : (p₁.map Prod.fst).Nodup) : ∀ k, jGet p₁ k = jGet p₂ k := by
  intro k
  have hnd₂ : (p₂.map Prod.fst).Nodup := ((h.map Prod.fst).nodup_iff).mp hnd
  cases hf₁ : p₁.find? (fun q => q.1 == k) with
  | none =>
    have hall := List.find?_eq_none.mp hf₁
    have hf₂ : p₂.find? (fun q => q.1 == k) = none :=
      List.find?_eq_none.mpr (fun x hx => hall x (h.mem_iff.mpr hx))
    simp [jGet, hf₁, hf₂]
  | some q =>
    have hq_mem : q ∈ p₁ := List.mem_of_find?_eq_some hf₁
    have hq_pred : q.1 = k := by
      have := List.find?_some hf₁
      simpa using this
    cases hf₂ : p₂.find? (fun q => q.1 == k) with
    | none =>
      have hall := List.find?_eq_none.mp hf₂
      have := hall q (h.mem_iff.mp hq_mem)
      simp [hq_pred] at this
    | some q₂ =>
      have hq₂_mem : q₂ ∈ p₂ := List.mem_of_find?_eq_some hf₂
      have hq₂_pred : q₂.1 = k := by
        have := List.find?_some hf₂
        simpa using this
      have heq : q = q₂ :=
        mem_key_inj hnd₂ (h.mem_iff.mp hq_mem) hq₂_mem (by rw [hq_pred, hq₂_pred])
      simp [jGet, hf₁, hf₂, heq]

/-- C9: for every hash function over the canonical serialization, two
payloads whose scoring-relevant key objects are identical in value — equal
up to reordering of (duplicate-free) dict fields at any depth — receive
the same cache key; in particular, permuting the fields of a payload with
duplicate-free keys leaves its cache key unchanged, and since the key is a
pure function of the payload it does not depend on call order. -/
theorem C9_cache_key_order_independent (hash : JValue → String) :
    (∀ p₁ p₂ : List (String × JValue), EquivJ (key_obj p₁) (key_obj p₂) →
      _build_cache_key hash p₁ = _build_cache_key hash p₂)
    ∧ (∀ p₁ p₂ : List (String × JValue), List.Perm p₁ p₂ → (p₁.map Prod.fst).Nodup →
      _build_cache_key hash p₁ = _build_cache_key hash p₂) := by
  constructor
  · intro p₁ p₂ h
    unfold _build_cache_key
    rw [equivJ_canon h]
  · intro p₁ p₂ hperm hnd
    have hg : ∀ k, jGet p₁ k = jGet p₂ k := jGet_perm hperm hnd
    have hko : key_obj p₁ = key_obj p₂ := by
      simp only [key_obj, jGetD, jGetOr, jShotsList, hg]
    unfold _build_cache_key
    rw [hko]

/-- Pointwise reflexivity of field-list equivalence, given equivalence of
each value with itself. -/
lemma equivObj_refl : ∀ {l : List (String × JValue)},
    (∀ r ∈ l, EquivJ r.2 r.2) → EquivObj l l
  | [], _ => .nil
  | p :: t, h =>
    .cons rfl (h p (List.mem_cons_self p t))
      (equivObj_refl (fun r hr => h r (List.mem_cons_of_mem p hr)))

/-- Field-list equivalence for lists that differ in a single field's value. -/
lemma equivObj_middle {pre suf : List (String × JValue)} {p q : String × JValue}
    (hpre : ∀ r ∈ pre, EquivJ r.2 r.2) (hsuf : ∀ r ∈ suf, EquivJ r.2 r.2)
    (hk : p.1 = q.1) (hv : EquivJ p.2 q.2) :
    EquivObj (pre ++ p :: suf) (pre ++ q :: suf) := by
  induction pre with
  | nil => exact .cons hk hv (equivObj_refl hsuf)
  | cons r t ih =>
    exact .cons rfl (hpre r (List.mem_cons_self r t))
      (ih (fun x hx => hpre x (List.mem_cons_of_mem r hx)))

/-- Witness for C9 at concrete payloads: reordering the fields inside
`basePrompt`, or permuting the payload's own top-level fields, leaves the
cache key unchanged. -/
theorem C9_cache_key_order_independent_witness :
    (_build_cache_key (fun _ => "k")
        [("basePrompt", JValue.obj [("x", JValue.num 1), ("y", JValue.str "b")])] =
      _build_cache_key (fun _ => "k")
        [("basePrompt", JValue.obj [("y", JValue.str "b"), ("x", JValue.num 1)])])
    ∧ (_build_cache_key (fun _ => "k")
        [("schemaType", JValue.str "tutorial"), ("seed", JValue.num 7)] =
      _build_cache_key (fun _ => "k")
        [("seed", JValue.num 7), ("schemaType", JValue.str "tutorial")]) := by
  constructor
  · refine (C9_cache_key_order_independent (fun _ => "k")).1 _ _ ?_
    have e₁ : key_obj [("basePrompt", JValue.obj [("x", JValue.num 1), ("y", JValue.str "b")])] =
        JValue.obj ([("schemaType", JValue.null), ("enforceSchema", JValue.bool false),
          ("titleHint", JValue.str ""), ("shots", JValue.arr [])] ++
          ("basePrompt", JValue.obj [("x", JValue.num 1), ("y", JValue.str "b")]) ::
          [("referencePrompts", JValue.obj []), ("model", JValue.null),
           ("reflectionModel", JValue.null), ("temperature", JValue.null),
           ("reflectionTemperature", JValue.null), ("maxTokens", JValue.null),
           ("reflectionMaxTokens", JValue.null), ("rpmLimit", JValue.null),
           ("jsonBonus", JValue.null), ("featureWeights", JValue.obj []),
           ("auto", JValue.null), ("maxMetricCalls", JValue.null), ("seed", JValue.null),
           ("initialInstructions", JValue.str ""), ("experiencePath", JValue.str ""),
           ("experienceTopK", JValue.null), ("experienceMinScore", JValue.null),
           ("persistExperience", JValue.null), ("checkpointPath", JValue.str ""),
           ("alwaysFullValidation", JValue.null), ("progressiveSchedule", JValue.null),
           ("minValidationSize", JValue.null), ("earlyStopOnPerfect", JValue.null),
           ("earlyStopStreak", JValue.null), ("parallelEval", JValue.null),
           ("parallelWorkers", JValue.null), ("parallelBatchSize", JValue.null),
           ("evalTimeoutMs", JValue.null)]) := rfl
    have e₂ : key_obj [("basePrompt", JValue.obj [("y", JValue.str "b"), ("x", JValue.num 1)])] =
        JValue.obj ([("schemaType", JValue.null), ("enforceSchema", JValue.bool false),
          ("titleHint", JValue.str ""), ("shots", JValue.arr [])] ++
          ("basePrompt", JValue.obj [("y", JValue.str "b"), ("x", JValue.num 1)]) ::
          [("referencePrompts", JValue.obj []), ("model", JValue.null),
           ("reflectionModel", JValue.null), ("temperature", JValue.null),
           ("reflectionTemperature", JValue.null), ("maxTokens", JValue.null),
           ("reflectionMaxTokens", JValue.null), ("rpmLimit", JValue.null),
           ("jsonBonus", JValue.null), ("featureWeights", JValue.obj []),
           ("auto", JValue.null), ("maxMetricCalls", JValue.null), ("seed", JValue.null),
           ("initialInstructions", JValue.str ""), ("experiencePath", JValue.str ""),
           ("experienceTopK", JValue.null), ("experienceMinScore", JValue.null),
           ("persistExperience", JValue.null), ("checkpointPath", JValue.str ""),
           ("alwaysFullValidation", JValue.null), ("progressiveSchedule", JValue.null),
           ("minValidationSize", JValue.null), ("earlyStopOnPerfect", JValue.null),
           ("earlyStopStreak", JValue.null), ("parallelEval", JValue.null),
           ("parallelWorkers", JValue.null), ("parallelBatchSize", JValue.null),
           ("evalTimeoutMs", JValue.null)]) := rfl
    rw [e₁, e₂]
    refine EquivJ.obj (List.Perm.refl _) ?_ ?_
    · decide
    · refine equivObj_middle ?_ ?_ rfl ?_
      · intro r hr
        fin_cases hr
        · exact .null
        · exact .bool _
        · exact .str _
        · exact .arr .nil
      · intro r hr
        fin_cases hr <;>
          first
          | exact .null
          | exact .str _
          | exact .obj (List.Perm.refl []) (by simp) .nil
      · refine EquivJ.obj (List.Perm.swap _ _ _) ?_ ?_
        · decide
        · exact .cons rfl (.num 1) (.cons rfl (.str "b") .nil)
  · exact (C9_cache_key_order_independent (fun _ => "k")).2 _ _
      (List.Perm.swap _ _ _) (by decide)
